import Mathlib

/-
Verification of the gocryptotrader order-book synchronization engine and its
adapters.

The repository snapshot at hand contains the venue adapters (Binance and
CoinbasePro websocket handlers, the Binance wrapper), the currency code
registry (currency/code.go) and tests, but not the core
exchanges/websocket/wsorderbook package itself: only its callers
(SeedLocalCache, UpdateLocalCache, ProcessSnapshot, ProcessUpdate) appear.
The core operations LoadSnapshot, Update and GetBook are therefore modelled
from the specification (spec.md sections 3, 4.2, 4.3, 4.5), as marked on each
definition.  The CoinbasePro adapter functions and the currency registry are
embedded directly from the source files.

Prices and sizes are float64 in the source; they are modelled as exact
rationals.  All operations in the claims only copy, compare and order these
values (no arithmetic), so on exactly representable inputs the float and the
rational semantics coincide.
-/

namespace wsorderbook

/-- Modelled from the spec: PriceLevel, a single (price, size) pair (spec 3).
Matches orderbook.Item (fields Price, Amount) used by the adapters in src. -/
structure PriceLevel where
  price : ℚ
  size  : ℚ
deriving DecidableEq, Repr

/-- Modelled from the spec: the side of a change, (side, price, size) triples
being the elements of an update (spec 4.3). -/
inductive Side where
  | buy
  | sell
deriving DecidableEq, Repr

/-- Modelled from the spec: one element of an update's change list
(side, price, size) (spec 4.3). -/
structure Change where
  side  : Side
  price : ℚ
  size  : ℚ
deriving DecidableEq, Repr

/-- Modelled from the spec: a raw (updateID, changes, timestamp) tuple, the
unit held by the Pending-Update Buffer and the argument of Update (spec 3,
4.3). -/
structure PendingUpdate where
  updateID  : ℤ
  changes   : List Change
  timestamp : ℤ
deriving DecidableEq, Repr

/-- Modelled from the spec: the payload of LoadSnapshot
(bids, asks, snapshotID, timestamp) (spec 4.2). -/
structure SnapshotMsg where
  bids       : List PriceLevel
  asks       : List PriceLevel
  snapshotID : ℤ
  timestamp  : ℤ
deriving DecidableEq, Repr

/-- Modelled from the spec: the Book for one instrument: bids (strictly
descending by price), asks (strictly ascending by price), lastUpdateID,
lastUpdateTime, hasSnapshot, plus its Pending-Update Buffer (spec 3). -/
structure Book where
  bids           : List PriceLevel
  asks           : List PriceLevel
  lastUpdateID   : ℤ
  lastUpdateTime : ℤ
  hasSnapshot    : Bool
  buffer         : List PendingUpdate
deriving DecidableEq, Repr

/-- Modelled from the spec: the buffering configuration installed by the
wrappers via Websocket.Orderbook.Setup (binance_wrapper.go lines 163 to 170):
whether pre-snapshot buffering is enabled and the buffer capacity bound
(spec 3, 4.3). -/
structure Config where
  bufferEnabled : Bool
  bufferLimit   : ℕ
deriving DecidableEq, Repr

/-- Modelled from the spec: the error taxonomy of the engine (spec 7). -/
inductive BookError where
  | errNoSnapshot
  | errOutOfOrder
  | errStaleSnapshot
  | errBufferOverflow
  | errInvalidLevel
  | errUnknownInstrument
deriving DecidableEq, Repr

/-- Modelled from the spec: the status returned by LoadSnapshot and Update:
applied, the non-error buffered status, or one of the errors (spec 4.2, 4.3,
6). -/
inductive BookResult where
  | applied
  | buffered
  | err (e : BookError)
deriving DecidableEq, Repr

/-- Modelled from the spec: the state of a lazily created Book before any
snapshot or buffered update (spec 3, lifecycle). -/
def emptyBook : Book :=
  { bids := [], asks := [], lastUpdateID := 0, lastUpdateTime := 0,
    hasSnapshot := false, buffer := [] }

/-- Comparison placing one bid before another: bids are kept strictly
descending by price (spec 3). `cmpBid a b` holds when a comes strictly
before b. -/
def cmpBid (a b : ℚ) : Bool := decide (b < a)

/-- Comparison placing one ask before another: asks are kept strictly
ascending by price (spec 3). -/
def cmpAsk (a b : ℚ) : Bool := decide (a < b)

/-- Modelled from the spec: the per-change step of the Update Applier on one
side's ordered sequence: locate the price; if size is 0 remove the level if
present (no-op if absent); else insert or overwrite in place, preserving sort
order and uniqueness (spec 4.3).  The source locates by binary search; on the
sorted sequences this ordered walk computes the same result. -/
def applySide (cmp : ℚ → ℚ → Bool) : List PriceLevel → ℚ → ℚ → List PriceLevel
  | [], price, size => if size = 0 then [] else [⟨price, size⟩]
  | x :: xs, price, size =>
    if cmp price x.price then
      if size = 0 then x :: xs else ⟨price, size⟩ :: x :: xs
    else if price = x.price then
      if size = 0 then xs else ⟨price, size⟩ :: xs
    else
      x :: applySide cmp xs price size

/-- Modelled from the spec: one change applied to the Book; a malformed level
(negative size) is skipped with a diagnostic rather than aborting the batch
(spec 4.3). -/
def applyChange (b : Book) (c : Change) : Book :=
  if c.size < 0 then b
  else
    match c.side with
    | Side.buy  => { b with bids := applySide cmpBid b.bids c.price c.size }
    | Side.sell => { b with asks := applySide cmpAsk b.asks c.price c.size }

/-- Modelled from the spec: all changes of one call applied in order
(spec 4.3). -/
def applyChanges (b : Book) (cs : List Change) : Book := cs.foldl applyChange b

/-- Modelled from the spec: Update(key, changes, updateID, timestamp)
(spec 4.3).  Before a snapshot: buffer when enabled (overflow resets the book
to the no-snapshot state, spec 3 and 7), else ErrNoSnapshot.  A sequence
token not ahead of the current one is rejected with ErrOutOfOrder without
mutating state.  Otherwise the changes are applied and lastUpdateID and
lastUpdateTime advance. -/
def update (cfg : Config) (b : Book) (u : PendingUpdate) : BookResult × Book :=
  if b.hasSnapshot = false then
    if cfg.bufferEnabled then
      if b.buffer.length < cfg.bufferLimit then
        (BookResult.buffered, { b with buffer := b.buffer ++ [u] })
      else
        (BookResult.err BookError.errBufferOverflow,
          { b with buffer := [], bids := [], asks := [], hasSnapshot := false })
    else
      (BookResult.err BookError.errNoSnapshot, b)
  else if u.updateID ≤ b.lastUpdateID then
    (BookResult.err BookError.errOutOfOrder, b)
  else
    (BookResult.applied,
      { applyChanges b u.changes with
          lastUpdateID := u.updateID, lastUpdateTime := u.timestamp })

/-- Modelled from the spec: snapshot-side insertion used while sorting a
snapshot into invariant order: a level whose price is already present is the
offending duplicate and is dropped, the rest continues (spec 4.2). -/
def insertSide (cmp : ℚ → ℚ → Bool) (lvl : PriceLevel) :
    List PriceLevel → List PriceLevel
  | [] => [lvl]
  | x :: xs =>
    if cmp lvl.price x.price then lvl :: x :: xs
    else if lvl.price = x.price then x :: xs
    else x :: insertSide cmp lvl xs

/-- Modelled from the spec: validation and sorting of one snapshot side:
levels with non-positive size are malformed and dropped, duplicate prices are
dropped, the remainder is sorted into invariant order (spec 4.2, 3). -/
def sanitizeSide (cmp : ℚ → ℚ → Bool) (l : List PriceLevel) : List PriceLevel :=
  l.foldl (fun acc lvl => if lvl.size ≤ 0 then acc else insertSide cmp lvl acc) []

/-- Ordered insertion of a pending update by ascending updateID (spec 4.2:
the buffer remainder is applied in ascending updateID order). -/
def insertPending (u : PendingUpdate) :
    List PendingUpdate → List PendingUpdate
  | [] => [u]
  | x :: xs => if u.updateID < x.updateID then u :: x :: xs else x :: insertPending u xs

/-- Sort a list of pending updates by ascending updateID (spec 4.2). -/
def sortPending (l : List PendingUpdate) : List PendingUpdate :=
  l.foldr insertPending []

/-- Modelled from the spec: LoadSnapshot(key, bids, asks, snapshotID,
timestamp, bufferEnabled) (spec 4.2).  Returns ErrStaleSnapshot when a newer
snapshot has already been applied; otherwise replaces the Book wholesale,
sets lastUpdateID to snapshotID and hasSnapshot, and when buffering is
enabled drains the buffer: entries with updateID at most snapshotID are
discarded and the remainder applied in ascending updateID order through the
Update Applier. -/
def loadSnapshot (cfg : Config) (b : Book) (s : SnapshotMsg) : BookResult × Book :=
  if b.hasSnapshot = true ∧ s.snapshotID ≤ b.lastUpdateID then
    (BookResult.err BookError.errStaleSnapshot, b)
  else
    let base : Book :=
      { bids := sanitizeSide cmpBid s.bids, asks := sanitizeSide cmpAsk s.asks,
        lastUpdateID := s.snapshotID, lastUpdateTime := s.timestamp,
        hasSnapshot := true, buffer := [] }
    if cfg.bufferEnabled then
      (BookResult.applied,
        (sortPending (b.buffer.filter (fun u => decide (s.snapshotID < u.updateID)))).foldl
          (fun bk u => (update cfg bk u).2) base)
    else
      (BookResult.applied, base)

/-- Modelled from the spec: GetBook, the read access returning an independent
copy of (bids, asks, lastUpdateID) for the instrument's Book (spec 4.5). -/
def getBook (b : Book) : List PriceLevel × List PriceLevel × ℤ :=
  (b.bids, b.asks, b.lastUpdateID)

/-- The buffering-enabled configuration used in the buffering scenarios
(spec 3 suggests a capacity such as 1000). -/
def cfgDefault : Config := { bufferEnabled := true, bufferLimit := 1000 }

/-- One snapshot followed by a stream of updates, the valid operation
sequence of spec 8, starting from the lazily created empty Book. -/
def runBook (cfg : Config) (s : SnapshotMsg) (us : List PendingUpdate) : Book :=
  us.foldl (fun bk u => (update cfg bk u).2) (loadSnapshot cfg emptyBook s).2

end wsorderbook

namespace coinbasepro

/-- A raw price level of the CoinbasePro snapshot message: the price and
amount strings `snapshot.Bids[i][0]` and `snapshot.Bids[i][1]` fed to
strconv.ParseFloat by ProcessSnapshot (part_000 lines 179 to 227). -/
structure RawLevel where
  price  : String
  amount : String
deriving DecidableEq, Repr

/-- Accumulate the value of a run of decimal digits; any other character is a
syntax error. -/
def parseDigitsAux : List Char → ℕ → Option ℕ
  | [], acc => some acc
  | c :: cs, acc =>
    if c.isDigit then parseDigitsAux cs (acc * 10 + (c.toNat - 48)) else none

/-- A non-empty run of decimal digits. -/
def parseDigits : List Char → Option ℕ
  | [] => none
  | c :: cs => parseDigitsAux (c :: cs) 0

/-- Models strconv.ParseFloat on the inputs exercised here: an optional sign
followed by a plain decimal numeral with at most one decimal point parses to
its exact value; anything else (letters, empty, several points) is a syntax
error.  The adapters only ever compare and copy the parsed values, so the
exact-rational reading agrees with float64 on these numerals. -/
def parseFloat (s : String) : Option ℚ :=
  let signed : ℚ × List Char :=
    match s.toList with
    | '-' :: rest => (-1, rest)
    | '+' :: rest => (1, rest)
    | cs => (1, cs)
  let intPart := signed.2.takeWhile (fun c => decide (c ≠ '.'))
  match signed.2.dropWhile (fun c => decide (c ≠ '.')) with
  | [] => (parseDigits intPart).map (fun n => signed.1 * (n : ℚ))
  | _ :: frac =>
    match parseDigits intPart, parseDigits frac with
    | some n, some f =>
      some (signed.1 * ((n : ℚ) + (f : ℚ) / ((10 : ℚ) ^ frac.length)))
    | _, _ => none

/-- The bid or ask loop of CoinbasePro.ProcessSnapshot (part_000 lines 181 to
209): each level's price and amount strings are parsed in order and the
first parse failure is returned at once, abandoning the whole batch. -/
def parseLevels : List RawLevel → Except String (List wsorderbook.PriceLevel)
  | [] => Except.ok []
  | r :: rs =>
    match parseFloat r.price with
    | none =>
      Except.error ("strconv.ParseFloat: parsing " ++ r.price ++ ": invalid syntax")
    | some p =>
      match parseFloat r.amount with
      | none =>
        Except.error ("strconv.ParseFloat: parsing " ++ r.amount ++ ": invalid syntax")
      | some a =>
        match parseLevels rs with
        | Except.error e => Except.error e
        | Except.ok ls => Except.ok (⟨p, a⟩ :: ls)

/-- CoinbasePro.ProcessSnapshot (part_000 lines 179 to 227): decode all bid
levels then all ask levels, returning the first parse error; on success the
decoded sides are handed to Websocket.Orderbook.LoadSnapshot (the ok value
below is that payload). -/
def processSnapshot (bids asks : List RawLevel) :
    Except String (List wsorderbook.PriceLevel × List wsorderbook.PriceLevel) :=
  match parseLevels bids with
  | Except.error e => Except.error e
  | Except.ok bs =>
    match parseLevels asks with
    | Except.error e => Except.error e
    | Except.ok aa => Except.ok (bs, aa)

/-- A raw change of the CoinbasePro l2update message: the side, price and
size strings `update.Changes[i][0..2]` read by ProcessUpdate (part_000 lines
230 to 246). -/
structure RawChange where
  side   : String
  price  : String
  amount : String
deriving DecidableEq, Repr

/-- One decoded change: ProcessUpdate ignores parse errors (`price, _ :=
strconv.ParseFloat(...)`), so a failed parse leaves the Go zero value. -/
def changeItem (c : RawChange) : wsorderbook.PriceLevel :=
  ⟨(parseFloat c.price).getD 0, (parseFloat c.amount).getD 0⟩

/-- The bid entries ProcessUpdate collects: changes whose side string is
"buy", in order (part_000 lines 233 to 242). -/
def updateBidsOf (changes : List RawChange) : List wsorderbook.PriceLevel :=
  (changes.filter (fun c => decide (c.side = "buy"))).map changeItem

/-- The ask entries ProcessUpdate collects: every change whose side string is
not "buy" (part_000 lines 233 to 242). -/
def updateAsksOf (changes : List RawChange) : List wsorderbook.PriceLevel :=
  (changes.filter (fun c => decide (c.side ≠ "buy"))).map changeItem

/-- CoinbasePro.ProcessUpdate (part_000 lines 230 to 246): decode the change
list into bid and ask entries; if both are empty, return the error before
Websocket.Orderbook.Update is ever invoked.  The ok value is the diff that
the remainder of ProcessUpdate forwards to the core Update. -/
def processUpdate (changes : List RawChange) :
    Except String (List wsorderbook.PriceLevel × List wsorderbook.PriceLevel) :=
  if (updateAsksOf changes).length = 0 ∧ (updateBidsOf changes).length = 0 then
    Except.error "coinbasepro_websocket.go error - no data in websocket update"
  else
    Except.ok (updateBidsOf changes, updateAsksOf changes)

end coinbasepro

namespace currency

/-- Models common.StringToUpper (Go strings.ToUpper) on the ASCII symbols the
registry holds. -/
def goUpper (s : String) : String := s.map Char.toUpper

/-- Models common.StringContains (Go strings.Contains): the second string
occurs as a substring of the first. -/
def goContains (s sub : String) : Bool :=
  (List.range (s.length + 1)).any (fun i => sub.toList.isPrefixOf (s.toList.drop i))

/-- currency.Code (code.go lines 400 to 403): a pointer to a registry Item
plus the UpperCase formatting flag.  Item identity (Go pointer equality, the
whole content of Match) is modelled as the item's index in the registry's
Items slice; Register only ever appends fresh items, so distinct indices are
distinct pointers. -/
structure Code where
  item      : ℕ
  upperCase : Bool
deriving DecidableEq, Repr

/-- The registry state: the Symbol field of each Item in BaseCodes.Items, in
slice order.  Register and Match consult no other Item field. -/
abbrev Registry := List String

/-- The linear scan of BaseCodes.Register (code.go lines 302 to 309): the
index of the first item whose Symbol equals the uppercased input. -/
def findSymbol : Registry → String → Option ℕ
  | [], _ => none
  | x :: xs, sym =>
    if x = sym then some 0 else (findSymbol xs sym).map (· + 1)

/-- BaseCodes.Register (code.go lines 296 to 319): uppercase the input,
return the existing Item if the symbol is already registered, else append a
fresh Item; the UpperCase flag records whether the input already contained
its uppercased form. -/
def register (items : Registry) (c : String) : Registry × Code :=
  match findSymbol items (goUpper c) with
  | some i => (items, ⟨i, goContains c (goUpper c)⟩)
  | none => (items ++ [goUpper c], ⟨items.length, goContains c (goUpper c)⟩)

/-- Code.Match (code.go lines 472 to 475): pointer equality of the underlying
Items, i.e. equality of registry indices. -/
def matchCode (a b : Code) : Bool := a.item == b.item

/-- Two sequential calls of NewCode (code.go lines 393 to 396) on the shared
storage: NewCode forwards to storage.ValidateCode, which registers the string
with the registry (the one-line ValidateCode wrapper is not under src; the
registration logic it forwards to, Register, is embedded above). -/
def newCodePair (items : Registry) (s t : String) : Code × Code :=
  ((register items s).2, (register (register items s).1 t).2)

/-- Role.String (code.go lines 31 to 46) over the uint8 bitmask values
Unset = 0, Fiat = 1, Cryptocurrency = 2, Token = 4, Contract = 8. -/
def roleString (r : ℕ) : String :=
  if r = 0 then "roleUnset"
  else if r = 1 then "fiatCurrency"
  else if r = 2 then "cryptocurrency"
  else if r = 4 then "token"
  else if r = 8 then "contract"
  else "UNKNOWN"

/-- Role.UnmarshalJSON (code.go lines 54 to 77) on the decoded JSON string:
the five defined role names map back to their bitmask values, anything else
is an unmarshal error.  (MarshalJSON emits Role.String through the JSON
string encoder and UnmarshalJSON first runs the JSON string decoder; the
stdlib encode/decode of these plain names is the identity, so the round trip
is modelled at the string level.) -/
def roleUnmarshalJSON (s : String) : Except String ℕ :=
  if s = "roleUnset" then Except.ok 0
  else if s = "fiatCurrency" then Except.ok 1
  else if s = "cryptocurrency" then Except.ok 2
  else if s = "token" then Except.ok 4
  else if s = "contract" then Except.ok 8
  else Except.error ("unmarshal error role type " ++ s ++ " unsupported for currency")

end currency

namespace wsorderbook

/-- One side's ordering invariant: consecutive levels are strictly ordered by
the side's comparison, hence prices are pairwise distinct (spec 3). -/
def SortedSide (cmp : ℚ → ℚ → Bool) (l : List PriceLevel) : Prop :=
  l.Pairwise (fun a b => cmp a.price b.price = true)

/-- No resident level has non-positive size (spec 3). -/
def PosSizes (l : List PriceLevel) : Prop := ∀ x ∈ l, 0 < x.size

/-- The Book invariant: bids strictly descending, asks strictly ascending,
all sizes positive (spec 3). -/
def BookInv (b : Book) : Prop :=
  SortedSide cmpBid b.bids ∧ SortedSide cmpAsk b.asks
    ∧ PosSizes b.bids ∧ PosSizes b.asks

lemma cmpBid_trans : ∀ a b c : ℚ, cmpBid a b = true → cmpBid b c = true →
    cmpBid a c = true := by
  intro a b c h1 h2
  simp only [cmpBid, decide_eq_true_eq] at *
  exact lt_trans h2 h1

lemma cmpBid_total : ∀ a b : ℚ, cmpBid a b = false → a ≠ b → cmpBid b a = true := by
  intro a b h1 h2
  simp only [cmpBid, decide_eq_false_iff_not] at h1
  simp only [cmpBid, decide_eq_true_eq]
  exact lt_of_le_of_ne (le_of_not_lt h1) h2

lemma cmpBid_ne {a b : ℚ} (h : cmpBid a b = true) : a ≠ b := by
  simp only [cmpBid, decide_eq_true_eq] at h
  exact ne_of_gt h

lemma cmpAsk_trans : ∀ a b c : ℚ, cmpAsk a b = true → cmpAsk b c = true →
    cmpAsk a c = true := by
  intro a b c h1 h2
  simp only [cmpAsk, decide_eq_true_eq] at *
  exact lt_trans h1 h2

lemma cmpAsk_total : ∀ a b : ℚ, cmpAsk a b = false → a ≠ b → cmpAsk b a = true := by
  intro a b h1 h2
  simp only [cmpAsk, decide_eq_false_iff_not] at h1
  simp only [cmpAsk, decide_eq_true_eq]
  exact lt_of_le_of_ne (le_of_not_lt h1) (Ne.symm h2)

lemma cmpAsk_ne {a b : ℚ} (h : cmpAsk a b = true) : a ≠ b := by
  simp only [cmpAsk, decide_eq_true_eq] at h
  exact ne_of_lt h

lemma applySide_nil (cmp : ℚ → ℚ → Bool) (price size : ℚ) :
    applySide cmp [] price size = if size = 0 then [] else [⟨price, size⟩] := rfl

lemma applySide_cons (cmp : ℚ → ℚ → Bool) (x : PriceLevel) (xs : List PriceLevel)
    (price size : ℚ) :
    applySide cmp (x :: xs) price size =
      if cmp price x.price then
        (if size = 0 then x :: xs else ⟨price, size⟩ :: x :: xs)
      else if price = x.price then
        (if size = 0 then xs else ⟨price, size⟩ :: xs)
      else x :: applySide cmp xs price size := rfl

lemma mem_applySide {cmp : ℚ → ℚ → Bool} :
    ∀ {l : List PriceLevel} {price size : ℚ} {x : PriceLevel},
      x ∈ applySide cmp l price size → x ∈ l ∨ (x = ⟨price, size⟩ ∧ size ≠ 0) := by
  intro l
  induction l with
  | nil =>
    intro price size x hx
    by_cases hs : size = 0
    · simp [applySide_nil, hs] at hx
    · simp [applySide_nil, hs] at hx
      exact Or.inr ⟨hx, hs⟩
  | cons y ys ih =>
    intro price size x hx
    rw [applySide_cons] at hx
    by_cases hc : cmp price y.price = true
    · rw [if_pos hc] at hx
      by_cases hs : size = 0
      · rw [if_pos hs] at hx
        exact Or.inl hx
      · rw [if_neg hs] at hx
        rcases List.mem_cons.mp hx with h | h
        · exact Or.inr ⟨h, hs⟩
        · exact Or.inl h
    · rw [if_neg hc] at hx
      by_cases hq : price = y.price
      · rw [if_pos hq] at hx
        by_cases hs : size = 0
        · rw [if_pos hs] at hx
          exact Or.inl (List.mem_cons_of_mem _ hx)
        · rw [if_neg hs] at hx
          rcases List.mem_cons.mp hx with h | h
          · exact Or.inr ⟨h, hs⟩
          · exact Or.inl (List.mem_cons_of_mem _ h)
      · rw [if_neg hq] at hx
        rcases List.mem_cons.mp hx with h | h
        · exact Or.inl (h ▸ List.mem_cons_self y ys)
        · rcases ih h with h' | h'
          · exact Or.inl (List.mem_cons_of_mem _ h')
          · exact Or.inr h'

lemma sortedSide_applySide {cmp : ℚ → ℚ → Bool}
    (htrans : ∀ a b c, cmp a b = true → cmp b c = true → cmp a c = true)
    (htot : ∀ a b, cmp a b = false → a ≠ b → cmp b a = true) :
    ∀ {l : List PriceLevel} (price size : ℚ), SortedSide cmp l →
      SortedSide cmp (applySide cmp l price size) := by
  intro l
  induction l with
  | nil =>
    intro price size _
    by_cases hs : size = 0 <;> simp [applySide_nil, hs, SortedSide]
  | cons y ys ih =>
    intro price size hl
    rw [SortedSide, List.pairwise_cons] at hl
    obtain ⟨hy, hys⟩ := hl
    rw [SortedSide, applySide_cons]
    by_cases hc : cmp price y.price = true
    · rw [if_pos hc]
      by_cases hs : size = 0
      · rw [if_pos hs]
        exact List.Pairwise.cons hy hys
      · rw [if_neg hs]
        refine List.Pairwise.cons ?_ (List.Pairwise.cons hy hys)
        intro z hz
        rcases List.mem_cons.mp hz with rfl | hz'
        · exact hc
        · exact htrans _ _ _ hc (hy z hz')
    · rw [if_neg hc]
      by_cases hq : price = y.price
      · rw [if_pos hq]
        by_cases hs : size = 0
        · rw [if_pos hs]
          exact hys
        · rw [if_neg hs]
          refine List.Pairwise.cons ?_ hys
          intro z hz
          have := hy z hz
          simpa [hq] using this
      · rw [if_neg hq]
        refine List.Pairwise.cons ?_ (ih price size hys)
        intro z hz
        rcases mem_applySide hz with h | ⟨rfl, _⟩
        · exact hy z h
        · have hc' : cmp price y.price = false := by
            simpa using hc
          exact htot price y.price hc' hq

lemma posSizes_applySide {cmp : ℚ → ℚ → Bool} {l : List PriceLevel}
    {price size : ℚ} (hl : PosSizes l) (hsz : 0 ≤ size) :
    PosSizes (applySide cmp l price size) := by
  intro x hx
  rcases mem_applySide hx with h | ⟨rfl, hne⟩
  · exact hl x h
  · exact lt_of_le_of_ne hsz (Ne.symm hne)

lemma bookInv_applyChange {b : Book} {c : Change} (h : BookInv b) :
    BookInv (applyChange b c) := by
  obtain ⟨h1, h2, h3, h4⟩ := h
  unfold applyChange
  by_cases hs : c.size < 0
  · rw [if_pos hs]
    exact ⟨h1, h2, h3, h4⟩
  · rw [if_neg hs]
    have hsz : 0 ≤ c.size := le_of_not_lt hs
    cases c.side with
    | buy =>
      exact ⟨sortedSide_applySide cmpBid_trans cmpBid_total _ _ h1, h2,
        posSizes_applySide h3 hsz, h4⟩
    | sell =>
      exact ⟨h1, sortedSide_applySide cmpAsk_trans cmpAsk_total _ _ h2, h3,
        posSizes_applySide h4 hsz⟩

lemma bookInv_applyChanges {b : Book} {cs : List Change} (h : BookInv b) :
    BookInv (applyChanges b cs) := by
  unfold applyChanges
  induction cs generalizing b with
  | nil => exact h
  | cons c cs ih =>
    rw [List.foldl_cons]
    exact ih (bookInv_applyChange h)

lemma posSizes_nil : PosSizes [] := by
  intro x hx
  simp at hx

lemma bookInv_update {cfg : Config} {b : Book} {u : PendingUpdate}
    (h : BookInv b) : BookInv (update cfg b u).2 := by
  obtain ⟨h1, h2, h3, h4⟩ := h
  unfold update
  by_cases hs : b.hasSnapshot = false
  · rw [if_pos hs]
    by_cases he : cfg.bufferEnabled = true
    · rw [if_pos he]
      by_cases hc : b.buffer.length < cfg.bufferLimit
      · rw [if_pos hc]
        exact ⟨h1, h2, h3, h4⟩
      · rw [if_neg hc]
        exact ⟨List.Pairwise.nil, List.Pairwise.nil, posSizes_nil, posSizes_nil⟩
    · rw [if_neg he]
      exact ⟨h1, h2, h3, h4⟩
  · rw [if_neg hs]
    by_cases ho : u.updateID ≤ b.lastUpdateID
    · rw [if_pos ho]
      exact ⟨h1, h2, h3, h4⟩
    · rw [if_neg ho]
      have := @bookInv_applyChanges b u.changes ⟨h1, h2, h3, h4⟩
      obtain ⟨g1, g2, g3, g4⟩ := this
      exact ⟨g1, g2, g3, g4⟩

lemma mem_insertSide {cmp : ℚ → ℚ → Bool} {lvl : PriceLevel} :
    ∀ {l : List PriceLevel} {x : PriceLevel},
      x ∈ insertSide cmp lvl l → x ∈ l ∨ x = lvl := by
  intro l
  induction l with
  | nil =>
    intro x hx
    simp [insertSide] at hx
    exact Or.inr hx
  | cons y ys ih =>
    intro x hx
    unfold insertSide at hx
    by_cases hc : cmp lvl.price y.price = true
    · rw [if_pos hc] at hx
      rcases List.mem_cons.mp hx with h | h
      · exact Or.inr h
      · exact Or.inl h
    · rw [if_neg hc] at hx
      by_cases hq : lvl.price = y.price
      · rw [if_pos hq] at hx
        exact Or.inl hx
      · rw [if_neg hq] at hx
        rcases List.mem_cons.mp hx with h | h
        · exact Or.inl (h ▸ List.mem_cons_self y ys)
        · rcases ih h with h' | h'
          · exact Or.inl (List.mem_cons_of_mem _ h')
          · exact Or.inr h'

lemma sortedSide_insertSide {cmp : ℚ → ℚ → Bool}
    (htrans : ∀ a b c, cmp a b = true → cmp b c = true → cmp a c = true)
    (htot : ∀ a b, cmp a b = false → a ≠ b → cmp b a = true) {lvl : PriceLevel} :
    ∀ {l : List PriceLevel}, SortedSide cmp l →
      SortedSide cmp (insertSide cmp lvl l) := by
  intro l
  induction l with
  | nil =>
    intro _
    simp [insertSide, SortedSide]
  | cons y ys ih =>
    intro hl
    rw [SortedSide, List.pairwise_cons] at hl
    obtain ⟨hy, hys⟩ := hl
    rw [SortedSide]
    unfold insertSide
    by_cases hc : cmp lvl.price y.price = true
    · rw [if_pos hc]
      refine List.Pairwise.cons ?_ (List.Pairwise.cons hy hys)
      intro z hz
      rcases List.mem_cons.mp hz with rfl | hz'
      · exact hc
      · exact htrans _ _ _ hc (hy z hz')
    · rw [if_neg hc]
      by_cases hq : lvl.price = y.price
      · rw [if_pos hq]
        exact List.Pairwise.cons hy hys
      · rw [if_neg hq]
        refine List.Pairwise.cons ?_ (ih hys)
        intro z hz
        rcases mem_insertSide hz with h | rfl
        · exact hy z h
        · have hc' : cmp z.price y.price = false := by
            simpa using hc
          exact htot z.price y.price hc' hq

lemma posSizes_insertSide {cmp : ℚ → ℚ → Bool} {lvl : PriceLevel}
    {l : List PriceLevel} (hl : PosSizes l) (hp : 0 < lvl.size) :
    PosSizes (insertSide cmp lvl l) := by
  intro x hx
  rcases mem_insertSide hx with h | rfl
  · exact hl x h
  · exact hp

lemma sanitizeSide_invAux {cmp : ℚ → ℚ → Bool}
    (htrans : ∀ a b c, cmp a b = true → cmp b c = true → cmp a c = true)
    (htot : ∀ a b, cmp a b = false → a ≠ b → cmp b a = true) :
    ∀ (l acc : List PriceLevel), SortedSide cmp acc → PosSizes acc →
      SortedSide cmp
          (l.foldl (fun acc lvl => if lvl.size ≤ 0 then acc else insertSide cmp lvl acc) acc)
        ∧ PosSizes
          (l.foldl (fun acc lvl => if lvl.size ≤ 0 then acc else insertSide cmp lvl acc) acc) := by
  intro l
  induction l with
  | nil =>
    intro acc hs hp
    exact ⟨hs, hp⟩
  | cons lvl rest ih =>
    intro acc hs hp
    rw [List.foldl_cons]
    by_cases hz : lvl.size ≤ 0
    · rw [if_pos hz]
      exact ih acc hs hp
    · rw [if_neg hz]
      exact ih _ (sortedSide_insertSide htrans htot hs)
        (posSizes_insertSide hp (lt_of_not_le hz))

lemma sanitizeSide_inv {cmp : ℚ → ℚ → Bool}
    (htrans : ∀ a b c, cmp a b = true → cmp b c = true → cmp a c = true)
    (htot : ∀ a b, cmp a b = false → a ≠ b → cmp b a = true)
    (l : List PriceLevel) :
    SortedSide cmp (sanitizeSide cmp l) ∧ PosSizes (sanitizeSide cmp l) :=
  sanitizeSide_invAux htrans htot l [] List.Pairwise.nil posSizes_nil

lemma bookInv_foldUpdates {cfg : Config} :
    ∀ (us : List PendingUpdate) {b : Book}, BookInv b →
      BookInv (us.foldl (fun bk u => (update cfg bk u).2) b) := by
  intro us
  induction us with
  | nil =>
    intro b h
    exact h
  | cons u us ih =>
    intro b h
    rw [List.foldl_cons]
    exact ih (bookInv_update h)

lemma bookInv_loadSnapshot {cfg : Config} {b : Book} {s : SnapshotMsg}
    (h : BookInv b) : BookInv (loadSnapshot cfg b s).2 := by
  unfold loadSnapshot
  by_cases hst : b.hasSnapshot = true ∧ s.snapshotID ≤ b.lastUpdateID
  · rw [if_pos hst]
    exact h
  · rw [if_neg hst]
    have hbase : BookInv
        { bids := sanitizeSide cmpBid s.bids, asks := sanitizeSide cmpAsk s.asks,
          lastUpdateID := s.snapshotID, lastUpdateTime := s.timestamp,
          hasSnapshot := true, buffer := [] } :=
      ⟨(sanitizeSide_inv cmpBid_trans cmpBid_total s.bids).1,
        (sanitizeSide_inv cmpAsk_trans cmpAsk_total s.asks).1,
        (sanitizeSide_inv cmpBid_trans cmpBid_total s.bids).2,
        (sanitizeSide_inv cmpAsk_trans cmpAsk_total s.asks).2⟩
    by_cases he : cfg.bufferEnabled = true
    · rw [if_pos he]
      exact bookInv_foldUpdates _ hbase
    · rw [if_neg he]
      exact hbase

lemma bookInv_emptyBook : BookInv emptyBook :=
  ⟨List.Pairwise.nil, List.Pairwise.nil, posSizes_nil, posSizes_nil⟩

lemma filterNe_cons_keep {p : ℚ} {y : PriceLevel} {ys : List PriceLevel}
    (h : y.price ≠ p) :
    List.filter (fun x => decide (x.price ≠ p)) (y :: ys)
      = y :: List.filter (fun x => decide (x.price ≠ p)) ys := by
  simp [h]

lemma filterNe_cons_drop {p : ℚ} {y : PriceLevel} {ys : List PriceLevel}
    (h : y.price = p) :
    List.filter (fun x => decide (x.price ≠ p)) (y :: ys)
      = List.filter (fun x => decide (x.price ≠ p)) ys := by
  simp [h]

lemma filterNe_eq_self {p : ℚ} {ys : List PriceLevel}
    (h : ∀ a ∈ ys, a.price ≠ p) :
    List.filter (fun x => decide (x.price ≠ p)) ys = ys := by
  rw [List.filter_eq_self]
  intro a ha
  simpa using h a ha

/-- Removing a price with a size-0 change filters exactly that price out of a
sorted side: the level is removed when present and the change is a no-op when
the price is absent (the early return on passing the insertion point cannot
skip a match, because later levels are strictly beyond the price). -/
lemma applySide_zero_eq_filter {cmp : ℚ → ℚ → Bool}
    (hne : ∀ a b, cmp a b = true → a ≠ b)
    (htrans : ∀ a b c, cmp a b = true → cmp b c = true → cmp a c = true) :
    ∀ (l : List PriceLevel) (p : ℚ), SortedSide cmp l →
      applySide cmp l p 0 = l.filter (fun x => decide (x.price ≠ p)) := by
  intro l
  induction l with
  | nil =>
    intro p _
    simp [applySide_nil]
  | cons y ys ih =>
    intro p hl
    rw [SortedSide, List.pairwise_cons] at hl
    obtain ⟨hy, hys⟩ := hl
    rw [applySide_cons]
    by_cases hc : cmp p y.price = true
    · rw [if_pos hc, if_pos rfl,
        filterNe_cons_keep (Ne.symm (hne _ _ hc)),
        filterNe_eq_self (fun a ha => Ne.symm (hne _ _ (htrans _ _ _ hc (hy a ha))))]
    · rw [if_neg hc]
      by_cases hq : p = y.price
      · subst hq
        rw [if_pos rfl, if_pos rfl, filterNe_cons_drop rfl,
          filterNe_eq_self (fun a ha => Ne.symm (hne _ _ (hy a ha)))]
      · rw [if_neg hq,
          filterNe_cons_keep (fun h => hq h.symm),
          ih p hys]

/-- The book of the spec 8 level-removal scenario: the C6 snapshot already
applied, sequence token 10. -/
def bookC7 : Book :=
  { bids := [⟨100, 1⟩, ⟨99, 2⟩], asks := [⟨101, 1⟩, ⟨102, 2⟩],
    lastUpdateID := 10, lastUpdateTime := 0, hasSnapshot := true, buffer := [] }

/-- C1: for every book carrying a snapshot whose sequence token is
lastUpdateID, an Update whose updateID is not ahead of it (a re-applied or
older token included) returns ErrOutOfOrder and leaves the book completely
unchanged: the returned book is the input book itself, so bids, asks and
lastUpdateID are identical before and after the rejected call. -/
theorem c1_out_of_order_rejected (cfg : Config) (b : Book) (u : PendingUpdate)
    (hsnap : b.hasSnapshot = true) (hid : u.updateID ≤ b.lastUpdateID) :
    update cfg b u = (BookResult.err BookError.errOutOfOrder, b) := by
  unfold update
  rw [hsnap]
  simp [hid]

/-- Witness for C1: re-applying the already-applied token 10 on a concrete
book is rejected and the book is returned bit-for-bit unchanged. -/
theorem c1_witness :
    (⟨[⟨100, 1⟩], [⟨101, 1⟩], 10, 0, true, []⟩ : Book).hasSnapshot = true
    ∧ (⟨10, [⟨Side.buy, 102, 3⟩], 5⟩ : PendingUpdate).updateID
        ≤ (⟨[⟨100, 1⟩], [⟨101, 1⟩], 10, 0, true, []⟩ : Book).lastUpdateID
    ∧ update cfgDefault ⟨[⟨100, 1⟩], [⟨101, 1⟩], 10, 0, true, []⟩
          ⟨10, [⟨Side.buy, 102, 3⟩], 5⟩
        = (BookResult.err BookError.errOutOfOrder,
            ⟨[⟨100, 1⟩], [⟨101, 1⟩], 10, 0, true, []⟩) :=
  ⟨rfl, by decide,
    c1_out_of_order_rejected cfgDefault _ _ rfl (by decide)⟩

/-- C2: after one snapshot load followed by any stream of update calls
(accepted or rejected, monotone or not), GetBook returns bids strictly
descending by price, asks strictly ascending by price, with pairwise distinct
prices and no zero-size level on either side. -/
theorem c2_book_invariants (cfg : Config) (s : SnapshotMsg) (us : List PendingUpdate) :
    SortedSide cmpBid (getBook (runBook cfg s us)).1
    ∧ SortedSide cmpAsk (getBook (runBook cfg s us)).2.1
    ∧ List.Pairwise (fun a b : PriceLevel => a.price ≠ b.price)
        (getBook (runBook cfg s us)).1
    ∧ List.Pairwise (fun a b : PriceLevel => a.price ≠ b.price)
        (getBook (runBook cfg s us)).2.1
    ∧ (∀ x ∈ (getBook (runBook cfg s us)).1, 0 < x.size)
    ∧ (∀ x ∈ (getBook (runBook cfg s us)).2.1, 0 < x.size) := by
  have hinv : BookInv (runBook cfg s us) :=
    bookInv_foldUpdates us (bookInv_loadSnapshot bookInv_emptyBook)
  obtain ⟨h1, h2, h3, h4⟩ := hinv
  refine ⟨h1, h2, ?_, ?_, h3, h4⟩
  · exact List.Pairwise.imp (fun h => cmpBid_ne h) h1
  · exact List.Pairwise.imp (fun h => cmpAsk_ne h) h2

/-- C3: an Update before any snapshot is rejected with ErrNoSnapshot when
buffering is disabled; with buffering enabled it returns the non-error
buffered status, leaves the visible book (bids, asks, lastUpdateID)
untouched and queues the update, and a later LoadSnapshot whose snapshotID
is below the buffered updateID applies the buffered update, yielding exactly
the book that an Update arriving after the snapshot would have produced. -/
theorem c3_prebuffer_then_snapshot (cfg : Config) (b : Book) (u : PendingUpdate)
    (s : SnapshotMsg) (hsnap : b.hasSnapshot = false) (hbuf : b.buffer = [])
    (hcap : 0 < cfg.bufferLimit) (hid : s.snapshotID < u.updateID) :
    update { cfg with bufferEnabled := false } b u
        = (BookResult.err BookError.errNoSnapshot, b)
    ∧ (cfg.bufferEnabled = true →
        (update cfg b u).1 = BookResult.buffered
        ∧ ((update cfg b u).2).bids = b.bids
        ∧ ((update cfg b u).2).asks = b.asks
        ∧ ((update cfg b u).2).lastUpdateID = b.lastUpdateID
        ∧ ((update cfg b u).2).buffer = [u]
        ∧ (loadSnapshot cfg (update cfg b u).2 s).2
            = (update cfg (loadSnapshot cfg b s).2 u).2) := by
  constructor
  · unfold update
    rw [hsnap]
    simp
  · intro he
    have hu : update cfg b u = (BookResult.buffered, { b with buffer := [u] }) := by
      unfold update
      rw [hsnap, hbuf, he]
      simp [hcap]
    rw [hu]
    refine ⟨rfl, rfl, rfl, rfl, rfl, ?_⟩
    simp [loadSnapshot, hsnap, he, hbuf, hid, sortPending, insertPending]

/-- Witness for C3: a buffered update with token 5 before any snapshot, then
a snapshot with token 3; both hypotheses and the conclusion at that input. -/
theorem c3_witness :
    emptyBook.hasSnapshot = false ∧ emptyBook.buffer = []
    ∧ 0 < cfgDefault.bufferLimit
    ∧ (⟨[⟨99, 3⟩], [⟨101, 1⟩], 3, 0⟩ : SnapshotMsg).snapshotID
        < (⟨5, [⟨Side.buy, 100, 1⟩], 0⟩ : PendingUpdate).updateID
    ∧ (update { cfgDefault with bufferEnabled := false } emptyBook
            ⟨5, [⟨Side.buy, 100, 1⟩], 0⟩
          = (BookResult.err BookError.errNoSnapshot, emptyBook)
      ∧ (cfgDefault.bufferEnabled = true →
          (update cfgDefault emptyBook ⟨5, [⟨Side.buy, 100, 1⟩], 0⟩).1
              = BookResult.buffered
          ∧ ((update cfgDefault emptyBook ⟨5, [⟨Side.buy, 100, 1⟩], 0⟩).2).bids
              = emptyBook.bids
          ∧ ((update cfgDefault emptyBook ⟨5, [⟨Side.buy, 100, 1⟩], 0⟩).2).asks
              = emptyBook.asks
          ∧ ((update cfgDefault emptyBook ⟨5, [⟨Side.buy, 100, 1⟩], 0⟩).2).lastUpdateID
              = emptyBook.lastUpdateID
          ∧ ((update cfgDefault emptyBook ⟨5, [⟨Side.buy, 100, 1⟩], 0⟩).2).buffer
              = [⟨5, [⟨Side.buy, 100, 1⟩], 0⟩]
          ∧ (loadSnapshot cfgDefault
                (update cfgDefault emptyBook ⟨5, [⟨Side.buy, 100, 1⟩], 0⟩).2
                ⟨[⟨99, 3⟩], [⟨101, 1⟩], 3, 0⟩).2
              = (update cfgDefault
                  (loadSnapshot cfgDefault emptyBook ⟨[⟨99, 3⟩], [⟨101, 1⟩], 3, 0⟩).2
                  ⟨5, [⟨Side.buy, 100, 1⟩], 0⟩).2)) :=
  ⟨rfl, rfl, by decide, by decide,
    c3_prebuffer_then_snapshot cfgDefault emptyBook
      ⟨5, [⟨Side.buy, 100, 1⟩], 0⟩ ⟨[⟨99, 3⟩], [⟨101, 1⟩], 3, 0⟩
      rfl rfl (by decide) (by decide)⟩

/-- C4: once a snapshot has been applied, a LoadSnapshot whose snapshotID is
not newer than the current lastUpdateID returns ErrStaleSnapshot and returns
the book itself unchanged. -/
theorem c4_stale_snapshot_rejected (cfg : Config) (b : Book) (s : SnapshotMsg)
    (hsnap : b.hasSnapshot = true) (hid : s.snapshotID ≤ b.lastUpdateID) :
    loadSnapshot cfg b s = (BookResult.err BookError.errStaleSnapshot, b) := by
  unfold loadSnapshot
  rw [if_pos ⟨hsnap, hid⟩]

/-- Witness for C4: a stale snapshot with token 9 against a book at token 10
is rejected and the book is returned unchanged. -/
theorem c4_witness :
    (⟨[⟨100, 1⟩], [⟨101, 1⟩], 10, 0, true, []⟩ : Book).hasSnapshot = true
    ∧ (⟨[⟨98, 7⟩], [⟨103, 7⟩], 9, 0⟩ : SnapshotMsg).snapshotID
        ≤ (⟨[⟨100, 1⟩], [⟨101, 1⟩], 10, 0, true, []⟩ : Book).lastUpdateID
    ∧ loadSnapshot cfgDefault ⟨[⟨100, 1⟩], [⟨101, 1⟩], 10, 0, true, []⟩
          ⟨[⟨98, 7⟩], [⟨103, 7⟩], 9, 0⟩
        = (BookResult.err BookError.errStaleSnapshot,
            ⟨[⟨100, 1⟩], [⟨101, 1⟩], 10, 0, true, []⟩) :=
  ⟨rfl, by decide,
    c4_stale_snapshot_rejected cfgDefault _ _ rfl (by decide)⟩

/-- C6: loading the snapshot bids (100,1),(99,2), asks (101,1),(102,2) with
snapshotID 10 into a fresh book and reading it back via GetBook returns
exactly those levels and lastUpdateID 10. -/
theorem c6_round_trip :
    getBook (loadSnapshot cfgDefault emptyBook
        ⟨[⟨100, 1⟩, ⟨99, 2⟩], [⟨101, 1⟩, ⟨102, 2⟩], 10, 0⟩).2
      = ([⟨100, 1⟩, ⟨99, 2⟩], [⟨101, 1⟩, ⟨102, 2⟩], 10) := by decide

/-- C7: a size-0 change in an accepted update removes the level at that
price from the corresponding sorted side when present and is a no-op when
absent (on either side the result is the side with exactly that price
filtered out); in particular, from bids (100,1),(99,2) the accepted update
(buy,100,0) with token 11 is applied and leaves bids (99,2). -/
theorem c7_zero_size_removes :
    (∀ (l : List PriceLevel) (p : ℚ), SortedSide cmpBid l →
        applySide cmpBid l p 0 = l.filter (fun x => decide (x.price ≠ p)))
    ∧ (∀ (l : List PriceLevel) (p : ℚ), SortedSide cmpAsk l →
        applySide cmpAsk l p 0 = l.filter (fun x => decide (x.price ≠ p)))
    ∧ (update cfgDefault bookC7 ⟨11, [⟨Side.buy, 100, 0⟩], 1⟩).1 = BookResult.applied
    ∧ ((update cfgDefault bookC7 ⟨11, [⟨Side.buy, 100, 0⟩], 1⟩).2).bids = [⟨99, 2⟩] :=
  ⟨applySide_zero_eq_filter (fun a b h => cmpBid_ne h) cmpBid_trans,
    applySide_zero_eq_filter (fun a b h => cmpAsk_ne h) cmpAsk_trans,
    by decide, by decide⟩

/-- Witness for C7: the two universally quantified removal equations
instantiated at the concrete sides, a present price on the bid side and an
absent price on the ask side. -/
theorem c7_witness :
    (SortedSide cmpBid [⟨100, 1⟩, ⟨99, 2⟩]
      ∧ applySide cmpBid [⟨100, 1⟩, ⟨99, 2⟩] 100 0
          = List.filter (fun x => decide (x.price ≠ 100)) [⟨100, 1⟩, ⟨99, 2⟩])
    ∧ (SortedSide cmpAsk [⟨101, 1⟩, ⟨102, 2⟩]
      ∧ applySide cmpAsk [⟨101, 1⟩, ⟨102, 2⟩] 150 0
          = List.filter (fun x => decide (x.price ≠ 150)) [⟨101, 1⟩, ⟨102, 2⟩]) :=
  ⟨⟨by unfold SortedSide; decide,
      c7_zero_size_removes.1 [⟨100, 1⟩, ⟨99, 2⟩] 100 (by unfold SortedSide; decide)⟩,
    ⟨by unfold SortedSide; decide,
      c7_zero_size_removes.2.1 [⟨101, 1⟩, ⟨102, 2⟩] 150 (by unfold SortedSide; decide)⟩⟩

end wsorderbook

namespace coinbasepro

/-- A malformed raw level: its price or its amount string fails to parse
(the failure mode ProcessSnapshot checks level by level). -/
def malformedLevel (r : RawLevel) : Prop :=
  parseFloat r.price = none ∨ parseFloat r.amount = none

instance : DecidablePred malformedLevel := fun r =>
  inferInstanceAs (Decidable (parseFloat r.price = none ∨ parseFloat r.amount = none))

lemma parseLevels_error {l : List RawLevel} (h : ∃ r ∈ l, malformedLevel r) :
    ∃ e, parseLevels l = Except.error e := by
  induction l with
  | nil => simp at h
  | cons r rs ih =>
    unfold parseLevels
    cases hp : parseFloat r.price with
    | none => exact ⟨_, rfl⟩
    | some p =>
      cases hq : parseFloat r.amount with
      | none => exact ⟨_, rfl⟩
      | some a =>
        obtain ⟨r', hr', hm⟩ := h
        rcases List.mem_cons.mp hr' with rfl | hr''
        · rcases hm with hm | hm
          · rw [hp] at hm
            exact absurd hm (by simp)
          · rw [hq] at hm
            exact absurd hm (by simp)
        · obtain ⟨e, he⟩ := ih ⟨r', hr'', hm⟩
          rw [he]
          exact ⟨e, rfl⟩

/-- C5 counterexample: a snapshot whose second bid level is malformed.
ProcessSnapshot returns the parse error and produces no payload at all for
LoadSnapshot: the remaining valid levels (100,1) and (101,1) are NOT loaded,
contradicting the claim that only the offending level is dropped and the
rest of the snapshot still applies. -/
theorem c5_counterexample :
    processSnapshot [⟨"100", "1"⟩, ⟨"xyz", "2"⟩] [⟨"101", "1"⟩]
        = Except.error "strconv.ParseFloat: parsing xyz: invalid syntax"
    ∧ (processSnapshot [⟨"100", "1"⟩, ⟨"xyz", "2"⟩] [⟨"101", "1"⟩]).isOk = false :=
  ⟨rfl, rfl⟩

/-- C5 amended: a snapshot payload containing a malformed price level (on
either side) makes ProcessSnapshot abort the whole snapshot: it returns the
parse error of the first malformed field and loads nothing (the core
LoadSnapshot is never reached); it does not drop only the offending level
and continue. -/
theorem c5_amended_abort (bids asks : List RawLevel)
    (h : (∃ r ∈ bids, malformedLevel r) ∨ (∃ r ∈ asks, malformedLevel r)) :
    ∃ e, processSnapshot bids asks = Except.error e := by
  unfold processSnapshot
  rcases h with h | h
  · obtain ⟨e, he⟩ := parseLevels_error h
    rw [he]
    exact ⟨e, rfl⟩
  · cases hb : parseLevels bids with
    | error e => exact ⟨e, rfl⟩
    | ok bs =>
      obtain ⟨e, he⟩ := parseLevels_error h
      rw [he]
      exact ⟨e, rfl⟩

/-- Witness for the amended C5 at the counterexample payload. -/
theorem c5_amended_witness :
    ((∃ r ∈ ([⟨"100", "1"⟩, ⟨"xyz", "2"⟩] : List RawLevel), malformedLevel r)
        ∨ (∃ r ∈ ([⟨"101", "1"⟩] : List RawLevel), malformedLevel r))
    ∧ ∃ e, processSnapshot [⟨"100", "1"⟩, ⟨"xyz", "2"⟩] [⟨"101", "1"⟩]
        = Except.error e :=
  ⟨by decide,
    c5_amended_abort [⟨"100", "1"⟩, ⟨"xyz", "2"⟩] [⟨"101", "1"⟩] (by decide)⟩

/-- C9: a decoded level-2 update whose change list yields no bid entries and
no ask entries makes ProcessUpdate return the error before the core Update
operation is invoked (the ok payload that would be forwarded to Update is
never produced), so an empty diff cannot reach or mutate the order book. -/
theorem c9_empty_update_rejected (changes : List RawChange)
    (hb : updateBidsOf changes = []) (ha : updateAsksOf changes = []) :
    processUpdate changes
      = Except.error "coinbasepro_websocket.go error - no data in websocket update" := by
  unfold processUpdate
  rw [hb, ha]
  simp

/-- Witness for C9 at the empty change list. -/
theorem c9_witness :
    updateBidsOf [] = [] ∧ updateAsksOf [] = []
    ∧ processUpdate []
        = Except.error "coinbasepro_websocket.go error - no data in websocket update" :=
  ⟨rfl, rfl, c9_empty_update_rejected [] rfl rfl⟩

end coinbasepro

namespace currency

lemma findSymbol_some_get : ∀ {l : Registry} {sym : String} {i : ℕ},
    findSymbol l sym = some i → l.get? i = some sym := by
  intro l
  induction l with
  | nil =>
    intro sym i h
    simp [findSymbol] at h
  | cons x xs ih =>
    intro sym i h
    unfold findSymbol at h
    by_cases hx : x = sym
    · rw [if_pos hx] at h
      simp only [Option.some.injEq] at h
      subst h
      simp [hx]
    · rw [if_neg hx] at h
      cases hfs : findSymbol xs sym with
      | none =>
        rw [hfs] at h
        simp at h
      | some j =>
        rw [hfs] at h
        simp only [Option.map_some', Option.some.injEq] at h
        subst h
        simpa using ih hfs

lemma findSymbol_lt : ∀ {l : Registry} {sym : String} {i : ℕ},
    findSymbol l sym = some i → i < l.length := by
  intro l
  induction l with
  | nil =>
    intro sym i h
    simp [findSymbol] at h
  | cons x xs ih =>
    intro sym i h
    unfold findSymbol at h
    by_cases hx : x = sym
    · rw [if_pos hx] at h
      simp only [Option.some.injEq] at h
      simp [List.length_cons]
      omega
    · rw [if_neg hx] at h
      cases hfs : findSymbol xs sym with
      | none =>
        rw [hfs] at h
        simp at h
      | some j =>
        rw [hfs] at h
        simp only [Option.map_some', Option.some.injEq] at h
        have := ih hfs
        simp [List.length_cons]
        omega

lemma findSymbol_append : ∀ (l l' : Registry) (sym : String),
    findSymbol (l ++ l') sym
      = (match findSymbol l sym with
          | some i => some i
          | none => (findSymbol l' sym).map (· + l.length)) := by
  intro l
  induction l with
  | nil =>
    intro l' sym
    cases h : findSymbol l' sym with
    | none => simp [findSymbol, h]
    | some j => simp [findSymbol, h]
  | cons x xs ih =>
    intro l' sym
    by_cases hx : x = sym
    · simp [findSymbol, hx]
    · have hstep : ∀ (rest : Registry), findSymbol (x :: rest) sym
          = if x = sym then some 0 else (findSymbol rest sym).map (· + 1) :=
        fun rest => rfl
      have hL : findSymbol ((x :: xs) ++ l') sym
          = (findSymbol (xs ++ l') sym).map (· + 1) := by
        rw [List.cons_append, hstep, if_neg hx]
      have hR : findSymbol (x :: xs) sym = (findSymbol xs sym).map (· + 1) := by
        rw [hstep, if_neg hx]
      rw [hL, hR, ih]
      cases hfs : findSymbol xs sym with
      | some j => simp
      | none =>
        cases hl' : findSymbol l' sym with
        | none => simp
        | some j =>
          simp only [Option.map_none', Option.map_some', List.length_cons,
            Option.some.injEq]
          omega

lemma findSymbol_singleton (v sym : String) :
    findSymbol [v] sym = if v = sym then some 0 else none := by
  unfold findSymbol
  by_cases h : v = sym
  · rw [if_pos h, if_pos h]
  · rw [if_neg h, if_neg h]
    simp [findSymbol]

/-- C8: instrument-key component equality is value equality.  For any two
strings registered with the shared code registry in sequence, the resulting
codes Match exactly when the strings denote the same symbol, that is when
they agree after uppercasing: Register hands back the same underlying Item
index for every registration of the same symbol and a fresh index otherwise,
and Match is exactly identity of the underlying Item. -/
theorem c8_newcode_match_iff (items : Registry) (s t : String) :
    (matchCode (newCodePair items s t).1 (newCodePair items s t).2 = true)
      ↔ goUpper s = goUpper t := by
  unfold newCodePair matchCode register
  cases hfs : findSymbol items (goUpper s) with
  | some i =>
    dsimp only
    cases hft : findSymbol items (goUpper t) with
    | some j =>
      dsimp only
      simp only [beq_iff_eq]
      constructor
      · intro hij
        have h1 := findSymbol_some_get hfs
        have h2 := findSymbol_some_get hft
        rw [← hij] at h2
        rw [h1] at h2
        injection h2
      · intro hst
        rw [hst] at hfs
        rw [hfs] at hft
        exact Option.some.inj hft
    | none =>
      dsimp only
      simp only [beq_iff_eq]
      have hlt := findSymbol_lt hfs
      constructor
      · intro hij
        exact absurd hij (Nat.ne_of_lt hlt)
      · intro hst
        rw [hst] at hfs
        rw [hfs] at hft
        exact absurd hft (by simp)
  | none =>
    dsimp only
    rw [findSymbol_append]
    cases hft : findSymbol items (goUpper t) with
    | some j =>
      dsimp only
      simp only [beq_iff_eq]
      have hlt := findSymbol_lt hft
      constructor
      · intro hij
        exact absurd hij.symm (Nat.ne_of_lt hlt)
      · intro hst
        rw [hst] at hfs
        rw [hfs] at hft
        exact absurd hft (by simp)
    | none =>
      rw [findSymbol_singleton]
      by_cases hq : goUpper s = goUpper t
      · rw [if_pos hq]
        dsimp only
        simp [hq]
      · rw [if_neg hq]
        dsimp only
        simp only [Option.map_none', beq_iff_eq, List.length_append,
          List.length_singleton]
        constructor
        · intro hij
          exact absurd hij (by omega)
        · intro hst
          exact absurd hst hq

/-- Role.String composed with Role.UnmarshalJSON over the defined role
values. -/
def roleNames : List String :=
  ["roleUnset", "fiatCurrency", "cryptocurrency", "token", "contract"]

/-- C10: Role JSON serialisation round-trips.  For each of the five defined
Role values (Unset 0, Fiat 1, Cryptocurrency 2, Token 4, Contract 8),
unmarshalling the marshalled name returns the original value; and every
string outside the five defined role names unmarshals to the unsupported
role error. -/
theorem c10_role_round_trip :
    (∀ r ∈ ([0, 1, 2, 4, 8] : List ℕ), roleUnmarshalJSON (roleString r) = Except.ok r)
    ∧ (∀ s : String, s ≠ "roleUnset" → s ≠ "fiatCurrency" → s ≠ "cryptocurrency" →
        s ≠ "token" → s ≠ "contract" →
        roleUnmarshalJSON s
          = Except.error ("unmarshal error role type " ++ s ++ " unsupported for currency")) := by
  constructor
  · intro r hr
    fin_cases hr <;> rfl
  · intro s h1 h2 h3 h4 h5
    unfold roleUnmarshalJSON
    rw [if_neg h1, if_neg h2, if_neg h3, if_neg h4, if_neg h5]

/-- Witness for C10: the Token role round-trips, and a string outside the
five role names is rejected with the unsupported role error. -/
theorem c10_witness :
    ((4 : ℕ) ∈ ([0, 1, 2, 4, 8] : List ℕ)
      ∧ roleUnmarshalJSON (roleString 4) = Except.ok 4)
    ∧ (("bogus" : String) ≠ "roleUnset"
      ∧ roleUnmarshalJSON "bogus"
          = Except.error ("unmarshal error role type " ++ "bogus" ++ " unsupported for currency")) :=
  ⟨⟨by decide, c10_role_round_trip.1 4 (by decide)⟩,
    ⟨by decide,
      c10_role_round_trip.2 "bogus" (by decide) (by decide) (by decide)
        (by decide) (by decide)⟩⟩

end currency
